import Mathlib

/-!
Shallow embedding of the UWorld Question ID extractor add-on
(`src/__init__.py`): tag-pattern matching, identifier normalization, the
answered-ID store with rotating backups, the answered-ID filter stage and
the dialog input validation, together with proofs checking the
specification's claims.

Python strings are modelled as `List Char`.  `str.strip`, `str.isdigit`
and the regex classes `\d`, `\s` are modelled over the ASCII range that
the add-on's tags and identifiers use.
-/

namespace UWorld

/-- Characters that Python's `str.strip` and the regex class `\s` treat as
whitespace, restricted to the ASCII range (space, tab, LF, CR, VT, FF). -/
def isWs (c : Char) : Bool :=
  c.toNat = 32 || c.toNat = 9 || c.toNat = 10 || c.toNat = 13 ||
    c.toNat = 11 || c.toNat = 12

/-- Decimal digit: regex `\d` and the character test behind `str.isdigit`
(ASCII `'0'`..`'9'`, i.e. codepoints 48..57). -/
def isDigitCh (c : Char) : Bool := 48 ≤ c.toNat && c.toNat ≤ 57

/-- `str.strip()`: drop whitespace from both ends. -/
def pyStrip (s : List Char) : List Char :=
  ((s.dropWhile isWs).reverse.dropWhile isWs).reverse

/-- `str.isdigit()`: nonempty and all characters decimal digits. -/
def isdigitStr (s : List Char) : Bool := !s.isEmpty && s.all isDigitCh

/-- `int(s)` on a digit string (the `key=int` of the sort calls). -/
def strToNat (s : List Char) : Nat :=
  s.foldl (fun a c => 10 * a + (c.toNat - 48)) 0

/-- Shorthand turning a Lean string literal into the `List Char` model. -/
def chars (s : String) : List Char := s.toList

/- ## Generic takeWhile / dropWhile helper lemmas -/

theorem takeWhile_append_all {p : Char → Bool} :
    ∀ (a l : List Char), (∀ c ∈ a, p c = true) →
      (a ++ l).takeWhile p = a ++ l.takeWhile p := by
  intro a
  induction a with
  | nil => intro l _; simp
  | cons x xs ih =>
    intro l h
    have hx : p x = true := h x (by simp)
    simp [List.takeWhile_cons, hx]
    exact ih l (fun c hc => h c (by simp [hc]))

theorem dropWhile_append_all {p : Char → Bool} :
    ∀ (a l : List Char), (∀ c ∈ a, p c = true) →
      (a ++ l).dropWhile p = l.dropWhile p := by
  intro a
  induction a with
  | nil => intro l _; simp
  | cons x xs ih =>
    intro l h
    have hx : p x = true := h x (by simp)
    simp [List.dropWhile_cons, hx]
    exact ih l (fun c hc => h c (by simp [hc]))

theorem takeWhile_all {p : Char → Bool} (l : List Char)
    (h : ∀ c ∈ l, p c = true) : l.takeWhile p = l := by
  have := takeWhile_append_all l [] h
  simpa using this

theorem dropWhile_all {p : Char → Bool} (l : List Char)
    (h : ∀ c ∈ l, p c = true) : l.dropWhile p = [] := by
  have := dropWhile_append_all l [] h
  simpa using this

theorem dropWhile_head_false {p : Char → Bool} :
    ∀ (l : List Char), (∀ c, l.head? = some c → p c = false) →
      l.dropWhile p = l := by
  intro l h
  cases l with
  | nil => simp
  | cons x xs =>
    have : p x = false := h x (by simp)
    simp [List.dropWhile_cons, this]

theorem takeWhile_head_false {p : Char → Bool} :
    ∀ (l : List Char), (∀ c, l.head? = some c → p c = false) →
      l.takeWhile p = [] := by
  intro l h
  cases l with
  | nil => simp
  | cons x xs =>
    have : p x = false := h x (by simp)
    simp [List.takeWhile_cons, this]

/-- A string of non-whitespace characters is a fixpoint of `pyStrip`. -/
theorem pyStrip_eq_self (s : List Char) (h : ∀ c ∈ s, isWs c = false) :
    pyStrip s = s := by
  unfold pyStrip
  have h1 : s.dropWhile isWs = s :=
    dropWhile_head_false s (by
      intro c hc
      cases s with
      | nil => simp at hc
      | cons x xs =>
        simp at hc
        subst hc
        exact h x (by simp))
  rw [h1]
  have h2 : s.reverse.dropWhile isWs = s.reverse :=
    dropWhile_head_false s.reverse (by
      intro c hc
      have : c ∈ s.reverse := by
        cases hr : s.reverse with
        | nil => simp [hr] at hc
        | cons y ys => simp [hr] at hc ⊢; simp [hc]
      exact h c (by simpa using this))
  rw [h2, List.reverse_reverse]

theorem isdigitStr_iff (s : List Char) :
    isdigitStr s = true ↔ s ≠ [] ∧ ∀ c ∈ s, isDigitCh c = true := by
  simp [isdigitStr, List.isEmpty_iff, List.all_eq_true]

/-- Digit characters are not whitespace. -/
theorem not_isWs_of_isDigitCh {c : Char} (h : isDigitCh c = true) :
    isWs c = false := by
  simp [isDigitCh] at h
  simp [isWs]
  omega

/- ## `_normalize_ids_list` (src lines 150-167)

`_normalize_ids_list(raw)` strips each entry, keeps it only if
`str.isdigit`, removes duplicates (`list(set(ids))`) and sorts by `int`.
Python's `sorted` is stable; `list(set(..))` has unspecified order, so the
duplicate removal is modelled as keep-first and the sort as a stable
insertion sort on the `int` key, which pins the same results whenever two
distinct surviving strings never share an `int` value (and a deterministic
choice otherwise). -/

/-- Keep-first duplicate removal, modelling `list(set(ids))`. -/
def dedupAux (seen : List (List Char)) : List (List Char) → List (List Char)
  | [] => []
  | x :: xs =>
    if x ∈ seen then dedupAux seen xs else x :: dedupAux (x :: seen) xs

def dedupKeepFirst (l : List (List Char)) : List (List Char) := dedupAux [] l

/-- Stable insertion of `x` into a list sorted by `strToNat`. -/
def insertByInt (x : List Char) : List (List Char) → List (List Char)
  | [] => [x]
  | y :: ys =>
    if strToNat x ≤ strToNat y then x :: y :: ys else y :: insertByInt x ys

/-- Stable sort by the numeric value of the string (`sorted(_, key=int)`). -/
def sortByInt : List (List Char) → List (List Char)
  | [] => []
  | x :: xs => insertByInt x (sortByInt xs)

/-- `_normalize_ids_list` from the source: strip, keep digit strings,
deduplicate, sort numerically.  (`str(item)` is the identity on the string
entries modelled here; the `if not raw: return []` early exit agrees with
the pipeline on the empty list.) -/
def normalize_ids_list (raw : List (List Char)) : List (List Char) :=
  sortByInt (dedupKeepFirst ((raw.map pyStrip).filter isdigitStr))

/- ### Lemmas about the normalization pipeline -/

theorem mem_insertByInt {x y : List Char} :
    ∀ l, (y ∈ insertByInt x l ↔ y = x ∨ y ∈ l) := by
  intro l
  induction l with
  | nil => simp [insertByInt]
  | cons z zs ih =>
    by_cases h : strToNat x ≤ strToNat z
    · simp [insertByInt, h]
    · simp [insertByInt, h, ih]
      tauto

theorem insertByInt_perm (x : List Char) :
    ∀ l, (insertByInt x l).Perm (x :: l) := by
  intro l
  induction l with
  | nil => simp [insertByInt]
  | cons z zs ih =>
    by_cases h : strToNat x ≤ strToNat z
    · simp [insertByInt, h]
    · simp only [insertByInt, if_neg h]
      exact (ih.cons z).trans (List.Perm.swap x z zs)

theorem sortByInt_perm : ∀ l, (sortByInt l).Perm l := by
  intro l
  induction l with
  | nil => simp [sortByInt]
  | cons x xs ih =>
    exact (insertByInt_perm x (sortByInt xs)).trans (ih.cons x)

theorem insertByInt_pairwise {x : List Char} :
    ∀ {l}, l.Pairwise (fun a b => strToNat a ≤ strToNat b) →
      (insertByInt x l).Pairwise (fun a b => strToNat a ≤ strToNat b) := by
  intro l
  induction l with
  | nil => intro _; simp [insertByInt]
  | cons z zs ih =>
    intro h
    rcases List.pairwise_cons.mp h with ⟨hz, hzs⟩
    by_cases hle : strToNat x ≤ strToNat z
    · simp only [insertByInt, if_pos hle]
      refine List.pairwise_cons.mpr ⟨?_, h⟩
      intro b hb
      rcases List.mem_cons.mp hb with rfl | hb
      · exact hle
      · exact le_trans hle (hz b hb)
    · simp only [insertByInt, if_neg hle]
      refine List.pairwise_cons.mpr ⟨?_, ih hzs⟩
      intro b hb
      rcases (mem_insertByInt zs).mp hb with rfl | hb
      · omega
      · exact hz b hb

theorem sortByInt_pairwise :
    ∀ l, (sortByInt l).Pairwise (fun a b => strToNat a ≤ strToNat b) := by
  intro l
  induction l with
  | nil => simp [sortByInt]
  | cons x xs ih => exact insertByInt_pairwise ih

/-- Sorting a list already sorted by the key is the identity (stability). -/
theorem sortByInt_eq_self :
    ∀ l, l.Pairwise (fun a b => strToNat a ≤ strToNat b) → sortByInt l = l := by
  intro l
  induction l with
  | nil => intro _; simp [sortByInt]
  | cons x xs ih =>
    intro h
    rcases List.pairwise_cons.mp h with ⟨hx, hxs⟩
    have hrec : sortByInt xs = xs := ih hxs
    simp only [sortByInt, hrec]
    cases xs with
    | nil => simp [insertByInt]
    | cons y ys =>
      have : strToNat x ≤ strToNat y := hx y (by simp)
      simp [insertByInt, this]

theorem mem_dedupAux {x : List Char} :
    ∀ l seen, x ∈ dedupAux seen l → x ∈ l := by
  intro l
  induction l with
  | nil => intro seen h; simp [dedupAux] at h
  | cons z zs ih =>
    intro seen h
    by_cases hz : z ∈ seen
    · simp only [dedupAux, if_pos hz] at h
      exact List.mem_cons.mpr (Or.inr (ih seen h))
    · simp only [dedupAux, if_neg hz] at h
      rcases List.mem_cons.mp h with rfl | h
      · simp
      · exact List.mem_cons.mpr (Or.inr (ih _ h))

theorem mem_dedupAux_of_mem {x : List Char} :
    ∀ l seen, x ∈ l → x ∉ seen → x ∈ dedupAux seen l := by
  intro l
  induction l with
  | nil => intro seen h _; simp at h
  | cons z zs ih =>
    intro seen h hseen
    by_cases hz : z ∈ seen
    · simp only [dedupAux, if_pos hz]
      rcases List.mem_cons.mp h with rfl | h
      · exact absurd hz hseen
      · exact ih seen h hseen
    · simp only [dedupAux, if_neg hz]
      rcases List.mem_cons.mp h with rfl | h
      · simp
      · by_cases hxz : x = z
        · simp [hxz]
        · exact List.mem_cons.mpr
            (Or.inr (ih _ h (by simp [hseen, hxz])))

theorem dedupAux_nodup : ∀ l seen, (dedupAux seen l).Nodup := by
  intro l
  induction l with
  | nil => intro seen; simp [dedupAux]
  | cons z zs ih =>
    intro seen
    by_cases hz : z ∈ seen
    · simpa only [dedupAux, if_pos hz] using ih seen
    · simp only [dedupAux, if_neg hz]
      refine List.nodup_cons.mpr ⟨?_, ih _⟩
      intro hmem
      have : z ∈ dedupAux (z :: seen) zs := hmem
      -- an element of `dedupAux seen l` is never in `seen`
      have key : ∀ (l : List (List Char)) (seen : List (List Char)) (x : List Char),
          x ∈ dedupAux seen l → x ∉ seen := by
        intro l
        induction l with
        | nil => intro seen x h; simp [dedupAux] at h
        | cons w ws ihw =>
          intro seen x h
          by_cases hw : w ∈ seen
          · simp only [dedupAux, if_pos hw] at h
            exact ihw seen x h
          · simp only [dedupAux, if_neg hw] at h
            rcases List.mem_cons.mp h with rfl | h
            · exact hw
            · intro hx
              exact ihw _ x h (by simp [hx])
      exact key zs (z :: seen) z this (by simp)

theorem dedupKeepFirst_nodup (l : List (List Char)) :
    (dedupKeepFirst l).Nodup := dedupAux_nodup l []

theorem mem_dedupKeepFirst {x : List Char} {l : List (List Char)} :
    x ∈ dedupKeepFirst l ↔ x ∈ l :=
  ⟨mem_dedupAux l [], fun h => mem_dedupAux_of_mem l [] h (by simp)⟩

theorem dedupAux_eq_self :
    ∀ (l seen : List (List Char)), l.Nodup → (∀ x ∈ l, x ∉ seen) →
      dedupAux seen l = l := by
  intro l
  induction l with
  | nil => intro seen _ _; simp [dedupAux]
  | cons z zs ih =>
    intro seen hnd hdisj
    have hz : z ∉ seen := hdisj z (by simp)
    rcases List.nodup_cons.mp hnd with ⟨hzzs, hnd'⟩
    simp only [dedupAux, if_neg hz]
    congr 1
    exact ih (z :: seen) hnd' (by
      intro x hx
      simp only [List.mem_cons]
      push_neg
      exact ⟨fun hxz => hzzs (hxz ▸ hx), hdisj x (by simp [hx])⟩)

theorem dedupKeepFirst_eq_self {l : List (List Char)} (h : l.Nodup) :
    dedupKeepFirst l = l := dedupAux_eq_self l [] h (by simp)

theorem map_id_of {f : List Char → List Char} :
    ∀ l : List (List Char), (∀ x ∈ l, f x = x) → l.map f = l := by
  intro l
  induction l with
  | nil => intro _; simp
  | cons x xs ih =>
    intro h
    simp only [List.map_cons, h x (by simp)]
    rw [ih (fun y hy => h y (by simp [hy]))]

theorem mem_normalize_ids_list {x : List Char} {raw : List (List Char)} :
    x ∈ normalize_ids_list raw ↔
      isdigitStr x = true ∧ ∃ y ∈ raw, pyStrip y = x := by
  unfold normalize_ids_list
  rw [(sortByInt_perm _).mem_iff, mem_dedupKeepFirst, List.mem_filter]
  simp [List.mem_map, and_comm]

theorem normalize_ids_list_nodup (raw : List (List Char)) :
    (normalize_ids_list raw).Nodup :=
  ((sortByInt_perm _).nodup_iff).mpr (dedupKeepFirst_nodup _)

theorem normalize_ids_list_sorted (raw : List (List Char)) :
    (normalize_ids_list raw).Pairwise (fun a b => strToNat a ≤ strToNat b) :=
  sortByInt_pairwise _

theorem normalize_ids_list_all_digit {x : List Char} {raw : List (List Char)}
    (h : x ∈ normalize_ids_list raw) : isdigitStr x = true :=
  (mem_normalize_ids_list.mp h).1

/-- Normalizing an already-normalized identifier list is the identity. -/
theorem normalize_ids_list_idem (raw : List (List Char)) :
    normalize_ids_list (normalize_ids_list raw) = normalize_ids_list raw := by
  have hdig : ∀ x ∈ normalize_ids_list raw, isdigitStr x = true :=
    fun x hx => normalize_ids_list_all_digit hx
  have hstrip : ∀ x ∈ normalize_ids_list raw, pyStrip x = x := by
    intro x hx
    apply pyStrip_eq_self
    intro c hc
    have hd := (isdigitStr_iff x).mp (hdig x hx)
    exact not_isWs_of_isDigitCh (hd.2 c hc)
  conv_lhs => rw [normalize_ids_list]
  rw [map_id_of _ hstrip, List.filter_eq_self.mpr hdig,
    dedupKeepFirst_eq_self (normalize_ids_list_nodup raw),
    sortByInt_eq_self _ (normalize_ids_list_sorted raw)]

/- ## Persistence layer (src lines 170-243)

The backing JSON file is modelled by `Disk`: missing, unparseable, or a
stored document.  A stored document has the two top-level keys, each
possibly absent (`Option`).  `_load_raw_config` returns `{}` on a missing
or unreadable file, which the model renders as the both-keys-absent
document. -/

/-- Raw JSON document: the two top-level keys, each possibly absent. -/
structure RawDoc where
  answered_ids : Option (List (List Char))
  filter_used : Option Bool
deriving DecidableEq

/-- State of the backing config file. -/
inductive Disk where
  | missing
  | corrupt
  | stored (d : RawDoc)
deriving DecidableEq

/-- `_load_raw_config`: the raw JSON, or `{}` when missing/unreadable. -/
def load_raw_config : Disk → RawDoc
  | .missing => ⟨none, none⟩
  | .corrupt => ⟨none, none⟩
  | .stored d => d

/-- Normalized configuration, as produced by `get_config`. -/
structure Config where
  answered_ids : List (List Char)
  filter_used : Bool
deriving DecidableEq

/-- `get_config`: fill absent keys with defaults (`[]`, `True`), then
normalize the id list and coerce the flag to a boolean. -/
def get_config (disk : Disk) : Config :=
  let cfg := load_raw_config disk
  { answered_ids := normalize_ids_list (cfg.answered_ids.getD [])
    filter_used := cfg.filter_used.getD true }

/-- `save_config` composed with `_save_raw_config`'s write: normalize the
config and overwrite the file with it (the backup side effect is modelled
separately by `BackupState`). -/
def save_config (cfg : Config) : Disk :=
  Disk.stored ⟨some (normalize_ids_list cfg.answered_ids), some cfg.filter_used⟩

/-- `get_answered_ids`. -/
def get_answered_ids (d : Disk) : List (List Char) :=
  normalize_ids_list (get_config d).answered_ids

/-- `set_answered_ids`. -/
def set_answered_ids (ids : List (List Char)) (d : Disk) : Disk :=
  let cfg := get_config d
  save_config { cfg with answered_ids := normalize_ids_list ids }

/-- `get_filter_used`. -/
def get_filter_used (d : Disk) : Bool := (get_config d).filter_used

/-- `set_filter_used`. -/
def set_filter_used (flag : Bool) (d : Disk) : Disk :=
  save_config { get_config d with filter_used := flag }

/- ## Backup rotation (src lines 95-145, 184-194)

`_backup_config_file_if_exists` copies the current config file (when it
exists) into the backup directory under a name carrying the current
timestamp (`uworld_ids_config_<%Y-%m-%d-%H%M%S>.json`), then deletes the
oldest entries beyond 10, ordering by filename.  Since the fixed-length
timestamp format sorts lexically in chronological order and the rest of
the name is constant, the directory is modelled as the ascending list of
backup timestamps, each timestamp a natural number. -/

/-- File system state relevant to saving: whether the config file exists
and the ascending list of backup timestamps present in the backup
directory. -/
structure BackupState where
  config_exists : Bool
  backups : List Nat
deriving DecidableEq

/-- Create the backup copy: `shutil.copy2` to the timestamped name (a
second save in the same second overwrites the same name, so an existing
timestamp is not duplicated). Keeps the directory listing ascending. -/
def addBackup (now : Nat) : List Nat → List Nat
  | [] => [now]
  | b :: bs =>
    if now = b then b :: bs
    else if now < b then now :: b :: bs
    else b :: addBackup now bs

/-- The retention cap: sort the listing by name and delete the oldest
entries beyond 10 (`all_backups[:excess]`). -/
def rotateBackups (bs : List Nat) : List Nat :=
  if bs.length > 10 then bs.drop (bs.length - 10) else bs

/-- `_backup_config_file_if_exists`. -/
def backup_config_file_if_exists (now : Nat) (st : BackupState) : BackupState :=
  if st.config_exists then
    { st with backups := rotateBackups (addBackup now st.backups) }
  else st

/-- `_save_raw_config`: back up the previous version, then write the file. -/
def save_raw_config (now : Nat) (st : BackupState) : BackupState :=
  let st2 := backup_config_file_if_exists now st
  { st2 with config_exists := true }

/-- A sequence of saves at the given timestamps. -/
def save_seq (ts : List Nat) (st : BackupState) : BackupState :=
  ts.foldl (fun s t => save_raw_config t s) st

theorem addBackup_of_all_lt {now : Nat} :
    ∀ bs : List Nat, (∀ x ∈ bs, x < now) → addBackup now bs = bs ++ [now] := by
  intro bs
  induction bs with
  | nil => intro _; simp [addBackup]
  | cons b rest ih =>
    intro h
    have hb : b < now := h b (by simp)
    simp only [addBackup, if_neg (by omega : ¬ now = b),
      if_neg (by omega : ¬ now < b), List.cons_append]
    rw [ih (fun x hx => h x (by simp [hx]))]

theorem save_raw_config_not_exists (now : Nat) (bs : List Nat) :
    save_raw_config now ⟨false, bs⟩ = ⟨true, bs⟩ := by
  simp [save_raw_config, backup_config_file_if_exists]

theorem save_raw_config_exists (now : Nat) (bs : List Nat)
    (h : ∀ x ∈ bs, x < now) :
    save_raw_config now ⟨true, bs⟩ =
      ⟨true, rotateBackups (bs ++ [now])⟩ := by
  simp [save_raw_config, backup_config_file_if_exists, addBackup_of_all_lt bs h]

/- ## Tag patterns (src lines 250-263)

`STEP_PATTERNS` holds two compiled regexes per category.  Two shapes occur:

  * fixed-suffix: `#AK_StepN_vM::#UWorld::Step::(\d+)`
  * variable-depth: `#AK_StepN_vM::#UWorld::(?:[^:\s]+::)*(\d+)`

Both are a literal prefix followed by a tail.  The tail matchers below
implement the backtracking semantics of Python's `re` for exactly these
tails: `(\d+)` takes the maximal digit run (failing on the empty run), and
the greedy star consumes `[^:\s]+::` groups as deep as possible, falling
back to fewer iterations when no digit run follows.  (Backtracking inside
`[^:\s]+` itself can never help: a shortened run is followed by another
`[^:\s]` character, never by `::`.)  The recursion is written with fuel to
keep it structural; each star iteration consumes at least three characters
while spending one unit of fuel, so fuel `s.length` never runs out. -/

/-- The regex character class `[^:\s]`: not a colon (codepoint 58), not
whitespace. -/
def segChar (c : Char) : Bool := !(c.toNat = 58 || isWs c)

/-- `(\d+)` at the current position: the maximal digit run and the rest,
or `none` when the position does not start with a digit. -/
def matchDigits (s : List Char) : Option (List Char × List Char) :=
  let run := s.takeWhile isDigitCh
  if run.isEmpty then none else some (run, s.dropWhile isDigitCh)

/-- `(?:[^:\s]+::)*(\d+)` at the current position, greedy with
backtracking, with fuel for the star iterations. -/
def matchVarTailF : Nat → List Char → Option (List Char × List Char)
  | 0, s => matchDigits s
  | fuel + 1, s =>
    match s.dropWhile segChar with
    | ':' :: ':' :: rest2 =>
      if (s.takeWhile segChar).isEmpty then matchDigits s
      else
        match matchVarTailF fuel rest2 with
        | some r => some r
        | none => matchDigits s
    | _ => matchDigits s

/-- One compiled pattern: a literal prefix plus one of the two tail
shapes. -/
inductive Pat where
  | fixedStep (p : List Char)
  | varDepth (p : List Char)
deriving DecidableEq

def patPfx : Pat → List Char
  | .fixedStep p => p
  | .varDepth p => p

def patTail : Pat → List Char → Option (List Char × List Char)
  | .fixedStep _ => matchDigits
  | .varDepth _ => fun s => matchVarTailF s.length s

/-- Strip a literal prefix, or fail. -/
def stripPfx : List Char → List Char → Option (List Char)
  | [], s => some s
  | _ :: _, [] => none
  | p :: ps, c :: cs => if p = c then stripPfx ps cs else none

/-- Attempt a match of the whole pattern anchored at the current
position: the literal prefix, then the tail.  Returns the captured group
and the rest of the string after the match. -/
def tryPatAt (pat : Pat) (s : List Char) : Option (List Char × List Char) :=
  (stripPfx (patPfx pat) s).bind (patTail pat)

/-- `pat.finditer(tags)`, keeping the captured group of each match:
scan left to right, emit non-overlapping matches, resume after each
match's end, otherwise advance one character.  Every emitted match
consumes at least one character (the capture is a nonempty digit run), so
fuel `s.length` suffices. -/
def scanF (pat : Pat) : Nat → List Char → List (List Char)
  | 0, _ => []
  | fuel + 1, s =>
    match s with
    | [] => []
    | _ :: rest =>
      match tryPatAt pat s with
      | some (cap, after) => cap :: scanF pat fuel after
      | none => scanF pat fuel rest

/-- All captures of one pattern over a tag string. -/
def runPat (pat : Pat) (s : List Char) : List (List Char) :=
  scanF pat s.length s

/-- `STEP_PATTERNS` (src lines 250-263). -/
def step1_pats : List Pat :=
  [Pat.fixedStep (chars "#AK_Step1_v12::#UWorld::Step::"),
   Pat.varDepth (chars "#AK_Step1_v11::#UWorld::")]

def step2_pats : List Pat :=
  [Pat.fixedStep (chars "#AK_Step2_v12::#UWorld::Step::"),
   Pat.varDepth (chars "#AK_Step2_v11::#UWorld::")]

def step3_pats : List Pat :=
  [Pat.varDepth (chars "#AK_Step3_v12::#UWorld::"),
   Pat.varDepth (chars "#AK_Step3_v11::#UWorld::")]

def STEP_PATTERNS : List (List Char × List Pat) :=
  [(chars "step1", step1_pats),
   (chars "step2", step2_pats),
   (chars "step3", step3_pats)]

/- ### Pattern lemmas -/

theorem segChar_of_isDigitCh {c : Char} (h : isDigitCh c = true) :
    segChar c = true := by
  simp [isDigitCh] at h
  simp [segChar, isWs]
  omega

theorem matchDigits_run (d u : List Char) (hne : d ≠ [])
    (hd : ∀ c ∈ d, isDigitCh c = true)
    (hu : ∀ c, u.head? = some c → isDigitCh c = false) :
    matchDigits (d ++ u) = some (d, u) := by
  unfold matchDigits
  rw [takeWhile_append_all d u hd, takeWhile_head_false u hu,
    dropWhile_append_all d u hd, dropWhile_head_false u hu]
  simp [List.isEmpty_iff, hne]

theorem matchDigits_nomatch (u : List Char)
    (hu : ∀ c, u.head? = some c → isDigitCh c = false) :
    matchDigits u = none := by
  unfold matchDigits
  rw [takeWhile_head_false u hu]
  simp

/-- The concatenation `seg₁::seg₂:: … ::segₙ::` of the intermediate
segments, each followed by the `::` delimiter. -/
def joinSegs : List (List Char) → List Char
  | [] => []
  | a :: rest => a ++ ':' :: ':' :: joinSegs rest

theorem joinSegs_length_ge (segs : List (List Char)) (d : List Char) :
    segs.length ≤ (joinSegs segs ++ d).length := by
  induction segs with
  | nil => simp
  | cons a rest ih =>
    simp only [joinSegs, List.length_cons, List.append_assoc,
      List.length_append, List.cons_append] at *
    omega

theorem matchVarTailF_join :
    ∀ (segs : List (List Char)) (fuel : Nat) (d : List Char),
      (∀ a ∈ segs, a ≠ [] ∧ ∀ c ∈ a, segChar c = true) →
      d ≠ [] → (∀ c ∈ d, isDigitCh c = true) →
      segs.length ≤ fuel →
      matchVarTailF fuel (joinSegs segs ++ d) = some (d, []) := by
  intro segs
  induction segs with
  | nil =>
    intro fuel d _ hdne hdd _
    have hseg : ∀ c ∈ d, segChar c = true :=
      fun c hc => segChar_of_isDigitCh (hdd c hc)
    have hmd : matchDigits d = some (d, []) := by
      have := matchDigits_run d [] hdne hdd (by simp)
      simpa using this
    cases fuel with
    | zero => simpa [joinSegs, matchVarTailF] using hmd
    | succ f =>
      simp only [joinSegs, List.nil_append, matchVarTailF]
      rw [dropWhile_all d hseg]
      simpa using hmd
  | cons a rest ih =>
    intro fuel d hsegs hdne hdd hfuel
    obtain ⟨hane, haseg⟩ := hsegs a (by simp)
    have hrest : ∀ b ∈ rest, b ≠ [] ∧ ∀ c ∈ b, segChar c = true :=
      fun b hb => hsegs b (by simp [hb])
    cases fuel with
    | zero => simp at hfuel
    | succ f =>
      have hcolon : segChar ':' = false := by decide
      have hshape : joinSegs (a :: rest) ++ d =
          a ++ (':' :: ':' :: (joinSegs rest ++ d)) := by
        simp [joinSegs]
      rw [hshape]
      have htw : (a ++ (':' :: ':' :: (joinSegs rest ++ d))).takeWhile segChar
          = a := by
        rw [takeWhile_append_all a _ haseg]
        simp [List.takeWhile_cons, hcolon]
      have hdw : (a ++ (':' :: ':' :: (joinSegs rest ++ d))).dropWhile segChar
          = ':' :: ':' :: (joinSegs rest ++ d) := by
        rw [dropWhile_append_all a _ haseg]
        simp [List.dropWhile_cons, hcolon]
      have haemp : a.isEmpty = false := by
        cases a with
        | nil => exact absurd rfl hane
        | cons x xs => simp
      have hrec : matchVarTailF f (joinSegs rest ++ d) = some (d, []) :=
        ih f d hrest hdne hdd (Nat.succ_le_succ_iff.mp (by simpa using hfuel))
      simp only [matchVarTailF]
      rw [hdw]
      simp only [htw, haemp, Bool.false_eq_true, if_false, hrec]

theorem stripPfx_append : ∀ p t : List Char, stripPfx p (p ++ t) = some t := by
  intro p
  induction p with
  | nil => intro t; simp [stripPfx]
  | cons c cs ih => intro t; simp [stripPfx, ih]

theorem scanF_nil (pat : Pat) : ∀ fuel, scanF pat fuel [] = [] := by
  intro fuel
  cases fuel with
  | zero => simp [scanF]
  | succ f => simp [scanF]

/-- When the whole string is one anchored match, the scan yields exactly
its capture. -/
theorem runPat_single {pat : Pat} {s cap : List Char}
    (hne : s ≠ []) (h : tryPatAt pat s = some (cap, [])) :
    runPat pat s = [cap] := by
  obtain ⟨c, rest, rfl⟩ := List.exists_cons_of_ne_nil hne
  show scanF pat (c :: rest).length (c :: rest) = [cap]
  simp only [List.length_cons, scanF, h, scanF_nil]

/- ## Extraction (src lines 495-542)

`extract_ids(col, card_ids)` resolves each card to its joined tag string
(`" ".join(card.note().tags)`), collects the captures of every pattern
into three Python sets, sorts each set numerically, then applies the
answered-ID filter.  The record resolver is modelled as
`Nat → Option (List Char)`; `none` models `col.get_card`/`note()` raising,
which the source catches, logs and skips.  The answered set and the
filter flag, read from the config by the source, are passed as
parameters.  Python-set accumulation is modelled as append-if-new (any
set model agrees after the numeric sort, up to ties of distinct digit
strings with equal value). -/

structure ExtractionResult where
  step1 : List (List Char)
  step2 : List (List Char)
  step3 : List (List Char)
  c1 : Nat
  c2 : Nat
  c3 : Nat
deriving DecidableEq

/-- Captures of every pattern of one category over a tag string
(the two inner `finditer` loops of one category). -/
def runPats (pats : List Pat) (tags : List Char) : List (List Char) :=
  pats.foldl (fun acc p => acc ++ runPat p tags) []

/-- `set.add`. -/
def setAdd (s : List (List Char)) (x : List Char) : List (List Char) :=
  if x ∈ s then s else s ++ [x]

def setAddAll (s : List (List Char)) (xs : List (List Char)) : List (List Char) :=
  xs.foldl setAdd s

/-- One iteration of the per-card loop of `extract_ids`: resolve the card
to its tag string and add each pattern's captures to the three sets; a
resolution failure (`none`, modelling the caught exception) leaves the
sets untouched. -/
def extract_step (resolve : Nat → Option (List Char))
    (acc : List (List Char) × List (List Char) × List (List Char))
    (cid : Nat) : List (List Char) × List (List Char) × List (List Char) :=
  match resolve cid with
  | none => acc
  | some tags =>
    (setAddAll acc.1 (runPats step1_pats tags),
     setAddAll acc.2.1 (runPats step2_pats tags),
     setAddAll acc.2.2 (runPats step3_pats tags))

/-- The per-card accumulation loop of `extract_ids`, yielding the three
raw identifier sets. -/
def extract_loop (resolve : Nat → Option (List Char)) (card_ids : List Nat) :
    List (List Char) × List (List Char) × List (List Char) :=
  card_ids.foldl (extract_step resolve) ([], [], [])

/-- The filter stage of `extract_ids` (src lines 524-542): per category,
drop the answered identifiers when the filter flag is on, and report how
many entries were removed. -/
def filter_answered (raw1 raw2 raw3 : List (List Char))
    (answered : List (List Char)) (filter_used : Bool) : ExtractionResult :=
  if filter_used then
    let s1 := raw1.filter (fun x => !(decide (x ∈ answered)))
    let s2 := raw2.filter (fun x => !(decide (x ∈ answered)))
    let s3 := raw3.filter (fun x => !(decide (x ∈ answered)))
    ⟨s1, s2, s3,
     raw1.length - s1.length, raw2.length - s2.length, raw3.length - s3.length⟩
  else ⟨raw1, raw2, raw3, 0, 0, 0⟩

/-- `extract_ids`. -/
def extract_ids (resolve : Nat → Option (List Char)) (card_ids : List Nat)
    (answered : List (List Char)) (filter_used : Bool) : ExtractionResult :=
  let acc := extract_loop resolve card_ids
  filter_answered (sortByInt acc.1) (sortByInt acc.2.1) (sortByInt acc.2.2)
    answered filter_used

/- ## Dialog input validation (src lines 431-464)

`AnsweredIdsDialog.on_add_ids` strips the field text (empty → tooltip and
return, modelled as `none`), splits on commas, strips each part and keeps
only nonempty parts, then partitions the parts into numeric `new_ids` and
`invalid` (reported through `showInfo`).  The returned pair is
`(new_ids, invalid)`. -/

/-- `text.split(",")`. -/
def splitComma : List Char → List (List Char)
  | [] => [[]]
  | c :: rest =>
    if c.toNat = 44 then [] :: splitComma rest
    else
      match splitComma rest with
      | [] => [[c]]
      | t :: ts => (c :: t) :: ts

def on_add_ids (text : List Char) :
    Option (List (List Char) × List (List Char)) :=
  let t := pyStrip text
  if t.isEmpty then none
  else
    let parts := ((splitComma t).map pyStrip).filter (fun p => !p.isEmpty)
    some (parts.filter isdigitStr, parts.filter (fun p => !(isdigitStr p)))

/-- The effect of the add button on the store: merge the valid new ids
into the answered list and persist (`if new_ids:` guards the save). -/
def on_add_ids_flow (text : List Char) (d : Disk) : Disk :=
  match on_add_ids text with
  | none => d
  | some (new_ids, _) =>
    if new_ids.isEmpty then d
    else set_answered_ids (get_answered_ids d ++ new_ids) d

/- # Claims -/

/-- C1: For every raw per-category identifier list, answered set and value
of the filter flag, the filter stage of `extract_ids` returns the raw
lists unchanged with zero removed counts when the flag is off; when the
flag is on, each final list is the raw list minus the answered set (an
order-preserving set difference, hence a sublist of the raw list with
exactly the non-answered members) and each removed count equals the raw
length minus the final length, for the three categories independently. -/
theorem C1_filter_stage (r1 r2 r3 a : List (List Char)) :
    filter_answered r1 r2 r3 a false = ⟨r1, r2, r3, 0, 0, 0⟩ ∧
    ((∀ x, x ∈ (filter_answered r1 r2 r3 a true).step1 ↔ x ∈ r1 ∧ x ∉ a) ∧
      List.Sublist (filter_answered r1 r2 r3 a true).step1 r1 ∧
      (filter_answered r1 r2 r3 a true).c1 =
        r1.length - (filter_answered r1 r2 r3 a true).step1.length) ∧
    ((∀ x, x ∈ (filter_answered r1 r2 r3 a true).step2 ↔ x ∈ r2 ∧ x ∉ a) ∧
      List.Sublist (filter_answered r1 r2 r3 a true).step2 r2 ∧
      (filter_answered r1 r2 r3 a true).c2 =
        r2.length - (filter_answered r1 r2 r3 a true).step2.length) ∧
    ((∀ x, x ∈ (filter_answered r1 r2 r3 a true).step3 ↔ x ∈ r3 ∧ x ∉ a) ∧
      List.Sublist (filter_answered r1 r2 r3 a true).step3 r3 ∧
      (filter_answered r1 r2 r3 a true).c3 =
        r3.length - (filter_answered r1 r2 r3 a true).step3.length) := by
  refine ⟨by simp [filter_answered], ⟨?_, ?_, ?_⟩, ⟨?_, ?_, ?_⟩, ⟨?_, ?_, ?_⟩⟩
  · intro x; simp [filter_answered, List.mem_filter]
  · simp [filter_answered]
  · simp [filter_answered]
  · intro x; simp [filter_answered, List.mem_filter]
  · simp [filter_answered]
  · simp [filter_answered]
  · intro x; simp [filter_answered, List.mem_filter]
  · simp [filter_answered]
  · simp [filter_answered]

/-- C2: For every prefix (in particular each variable-depth pattern's
fixed prefix), every list of intermediate segments (each nonempty with no
colon and no whitespace) and every nonempty digit run, the variable-depth
pattern matcher applied to the tag literal
`prefix ++ seg₁::…::segₙ:: ++ digits` captures exactly the final digit
run, regardless of the count or content of the intermediate segments. -/
theorem C2_var_depth (pfx : List Char) (segs : List (List Char))
    (d : List Char)
    (hsegs : ∀ a ∈ segs, a ≠ [] ∧ ∀ c ∈ a, segChar c = true)
    (hdne : d ≠ []) (hdd : ∀ c ∈ d, isDigitCh c = true) :
    runPat (Pat.varDepth pfx) (pfx ++ (joinSegs segs ++ d)) = [d] := by
  apply runPat_single
  · intro hnil
    rcases List.append_eq_nil.mp hnil with ⟨-, h2⟩
    rcases List.append_eq_nil.mp h2 with ⟨-, h3⟩
    exact hdne h3
  · show (stripPfx (patPfx (Pat.varDepth pfx)) _).bind (patTail (Pat.varDepth pfx)) = _
    rw [show patPfx (Pat.varDepth pfx) = pfx from rfl, stripPfx_append]
    show patTail (Pat.varDepth pfx) (joinSegs segs ++ d) = _
    exact matchVarTailF_join segs _ d hsegs hdne hdd (joinSegs_length_ge segs d)

theorem C2_var_depth_witness :
    runPat (Pat.varDepth (chars "#AK_Step1_v11::#UWorld::"))
      (chars "#AK_Step1_v11::#UWorld::" ++
        (joinSegs [chars "A", chars "B", chars "C"] ++ chars "777")) =
      [chars "777"] :=
  C2_var_depth (chars "#AK_Step1_v11::#UWorld::")
    [chars "A", chars "B", chars "C"] (chars "777")
    (by decide) (by decide) (by decide)

/-- C3 counterexample: the claim says a digit run immediately followed by
non-delimiter characters (`::42abc`) produces no match, but the compiled
pattern has no boundary after `(\d+)`: on the tag
`#AK_Step1_v12::#UWorld::Step::42abc` the step1 fixed-suffix pattern does
produce a match, capturing `42`. -/
theorem C3_counterexample :
    runPat (Pat.fixedStep (chars "#AK_Step1_v12::#UWorld::Step::"))
        (chars "#AK_Step1_v12::#UWorld::Step::42abc") = [chars "42"] ∧
    runPat (Pat.fixedStep (chars "#AK_Step1_v12::#UWorld::Step::"))
        (chars "#AK_Step1_v12::#UWorld::Step::42abc") ≠ [] := by
  constructor
  · decide
  · decide

/-- C3 (amended): at an occurrence of a fixed-suffix pattern's structural
prefix, a match is produced exactly when the tail begins with a digit:
a tail beginning with a non-digit yields no match at that occurrence,
while a digit run followed by anything (including non-delimiter
characters, e.g. `::42abc`) is matched, capturing exactly the leading
digit run.  The same terminal digit matcher closes the variable-depth
patterns. -/
theorem C3_digit_tail (pfx d u : List Char)
    (hd : ∀ c ∈ d, isDigitCh c = true)
    (hu : ∀ c, u.head? = some c → isDigitCh c = false) :
    (d ≠ [] → tryPatAt (Pat.fixedStep pfx) (pfx ++ (d ++ u)) = some (d, u)) ∧
    tryPatAt (Pat.fixedStep pfx) (pfx ++ u) = none := by
  constructor
  · intro hne
    show (stripPfx (patPfx (Pat.fixedStep pfx)) _).bind (patTail (Pat.fixedStep pfx)) = _
    rw [show patPfx (Pat.fixedStep pfx) = pfx from rfl, stripPfx_append]
    show matchDigits (d ++ u) = _
    exact matchDigits_run d u hne hd hu
  · show (stripPfx (patPfx (Pat.fixedStep pfx)) _).bind (patTail (Pat.fixedStep pfx)) = _
    rw [show patPfx (Pat.fixedStep pfx) = pfx from rfl, stripPfx_append]
    show matchDigits u = _
    exact matchDigits_nomatch u hu

theorem C3_digit_tail_witness :
    (tryPatAt (Pat.fixedStep (chars "#AK_Step1_v12::#UWorld::Step::"))
        (chars "#AK_Step1_v12::#UWorld::Step::" ++ (chars "42" ++ chars "abc")) =
      some (chars "42", chars "abc")) ∧
    tryPatAt (Pat.fixedStep (chars "#AK_Step1_v12::#UWorld::Step::"))
        (chars "#AK_Step1_v12::#UWorld::Step::" ++ chars "abc") = none :=
  ⟨(C3_digit_tail (chars "#AK_Step1_v12::#UWorld::Step::") (chars "42")
      (chars "abc") (by decide) (by decide)).1 (by decide),
   (C3_digit_tail (chars "#AK_Step1_v12::#UWorld::Step::") (chars "42")
      (chars "abc") (by decide) (by decide)).2⟩

/-- C4: identifier normalization trims each entry, keeps it only when the
remainder is all decimal digits, deduplicates, and returns the survivors
in ascending numeric order — in particular `{"2","10","1"}` comes out as
`["1","2","10"]` — and normalizing an already-normalized list returns it
unchanged. -/
theorem C4_normalize (raw : List (List Char)) :
    (∀ x ∈ normalize_ids_list raw,
        isdigitStr x = true ∧ ∃ y ∈ raw, pyStrip y = x) ∧
    (normalize_ids_list raw).Nodup ∧
    (normalize_ids_list raw).Pairwise (fun x y => strToNat x ≤ strToNat y) ∧
    normalize_ids_list [chars "2", chars "10", chars "1"] =
      [chars "1", chars "2", chars "10"] ∧
    normalize_ids_list (normalize_ids_list raw) = normalize_ids_list raw := by
  exact ⟨fun x hx => mem_normalize_ids_list.mp hx,
    normalize_ids_list_nodup raw, normalize_ids_list_sorted raw,
    by decide, normalize_ids_list_idem raw⟩

/-- C5: Starting from no config file and no backups, after 12 sequential
saves at strictly increasing timestamps exactly 10 backup entries remain,
and they are the 10 most recent by timestamp: the first save finds no file
to back up, saves 2..12 create backups at `t1..t11`, and the retention cap
deletes the oldest (`t1`), leaving `[t2..t11]`.  (Timestamps are modelled
as naturals ordered as the backup filenames sort: the fixed-length
`%Y-%m-%d-%H%M%S` format makes name order chronological.) -/
theorem C5_backup_retention
    (t0 t1 t2 t3 t4 t5 t6 t7 t8 t9 t10 t11 : Nat)
    (_g1 : t0 < t1) (g2 : t1 < t2) (g3 : t2 < t3) (g4 : t3 < t4)
    (g5 : t4 < t5) (g6 : t5 < t6) (g7 : t6 < t7) (g8 : t7 < t8)
    (g9 : t8 < t9) (g10 : t9 < t10) (g11 : t10 < t11) :
    save_seq [t0, t1, t2, t3, t4, t5, t6, t7, t8, t9, t10, t11]
        ⟨false, []⟩ =
      ⟨true, [t2, t3, t4, t5, t6, t7, t8, t9, t10, t11]⟩ ∧
    ([t2, t3, t4, t5, t6, t7, t8, t9, t10, t11] : List Nat).length = 10 := by
  have e0 : save_raw_config t0 ⟨false, []⟩ = ⟨true, []⟩ :=
    save_raw_config_not_exists t0 []
  have e1 : save_raw_config t1 ⟨true, []⟩ = ⟨true, [t1]⟩ := by
    rw [save_raw_config_exists t1 [] (by simp)]
    simp [rotateBackups]
  have e2 : save_raw_config t2 ⟨true, [t1]⟩ = ⟨true, [t1, t2]⟩ := by
    rw [save_raw_config_exists t2 [t1] (by intro x hx; simp at hx; omega)]
    simp [rotateBackups]
  have e3 : save_raw_config t3 ⟨true, [t1, t2]⟩ = ⟨true, [t1, t2, t3]⟩ := by
    rw [save_raw_config_exists t3 [t1, t2] (by intro x hx; simp at hx; omega)]
    simp [rotateBackups]
  have e4 : save_raw_config t4 ⟨true, [t1, t2, t3]⟩ =
      ⟨true, [t1, t2, t3, t4]⟩ := by
    rw [save_raw_config_exists t4 [t1, t2, t3]
      (by intro x hx; simp at hx; omega)]
    simp [rotateBackups]
  have e5 : save_raw_config t5 ⟨true, [t1, t2, t3, t4]⟩ =
      ⟨true, [t1, t2, t3, t4, t5]⟩ := by
    rw [save_raw_config_exists t5 [t1, t2, t3, t4]
      (by intro x hx; simp at hx; omega)]
    simp [rotateBackups]
  have e6 : save_raw_config t6 ⟨true, [t1, t2, t3, t4, t5]⟩ =
      ⟨true, [t1, t2, t3, t4, t5, t6]⟩ := by
    rw [save_raw_config_exists t6 [t1, t2, t3, t4, t5]
      (by intro x hx; simp at hx; omega)]
    simp [rotateBackups]
  have e7 : save_raw_config t7 ⟨true, [t1, t2, t3, t4, t5, t6]⟩ =
      ⟨true, [t1, t2, t3, t4, t5, t6, t7]⟩ := by
    rw [save_raw_config_exists t7 [t1, t2, t3, t4, t5, t6]
      (by intro x hx; simp at hx; omega)]
    simp [rotateBackups]
  have e8 : save_raw_config t8 ⟨true, [t1, t2, t3, t4, t5, t6, t7]⟩ =
      ⟨true, [t1, t2, t3, t4, t5, t6, t7, t8]⟩ := by
    rw [save_raw_config_exists t8 [t1, t2, t3, t4, t5, t6, t7]
      (by intro x hx; simp at hx; omega)]
    simp [rotateBackups]
  have e9 : save_raw_config t9 ⟨true, [t1, t2, t3, t4, t5, t6, t7, t8]⟩ =
      ⟨true, [t1, t2, t3, t4, t5, t6, t7, t8, t9]⟩ := by
    rw [save_raw_config_exists t9 [t1, t2, t3, t4, t5, t6, t7, t8]
      (by intro x hx; simp at hx; omega)]
    simp [rotateBackups]
  have e10 : save_raw_config t10
      ⟨true, [t1, t2, t3, t4, t5, t6, t7, t8, t9]⟩ =
      ⟨true, [t1, t2, t3, t4, t5, t6, t7, t8, t9, t10]⟩ := by
    rw [save_raw_config_exists t10 [t1, t2, t3, t4, t5, t6, t7, t8, t9]
      (by intro x hx; simp at hx; omega)]
    simp [rotateBackups]
  have e11 : save_raw_config t11
      ⟨true, [t1, t2, t3, t4, t5, t6, t7, t8, t9, t10]⟩ =
      ⟨true, [t2, t3, t4, t5, t6, t7, t8, t9, t10, t11]⟩ := by
    rw [save_raw_config_exists t11 [t1, t2, t3, t4, t5, t6, t7, t8, t9, t10]
      (by intro x hx; simp at hx; omega)]
    simp [rotateBackups]
  refine ⟨?_, by simp⟩
  simp only [save_seq, List.foldl_cons, List.foldl_nil,
    e0, e1, e2, e3, e4, e5, e6, e7, e8, e9, e10, e11]

theorem C5_backup_retention_witness :
    save_seq [0, 1, 2, 3, 4, 5, 6, 7, 8, 9, 10, 11] ⟨false, []⟩ =
      ⟨true, [2, 3, 4, 5, 6, 7, 8, 9, 10, 11]⟩ ∧
    ([2, 3, 4, 5, 6, 7, 8, 9, 10, 11] : List Nat).length = 10 :=
  C5_backup_retention 0 1 2 3 4 5 6 7 8 9 10 11
    (by decide) (by decide) (by decide) (by decide) (by decide) (by decide)
    (by decide) (by decide) (by decide) (by decide) (by decide)

/-- C6 counterexample: saving the store loaded from disk is not a no-op on
the persisted content in general — a file holding the un-normalized list
`["2","1"]` is rewritten as `["1","2"]` by `save_config(get_config())`. -/
theorem C6_counterexample :
    save_config (get_config
        (Disk.stored ⟨some [chars "2", chars "1"], some true⟩)) ≠
      Disk.stored ⟨some [chars "2", chars "1"], some true⟩ := by
  decide

/-- C6 (amended): `save(load())` leaves the persisted content unchanged
whenever the file already holds normalized content (as any content written
by `save` is); and after saving any store, a fresh load returns exactly
the store's normalized content (normalized answered-ID list, same filter
flag). -/
theorem C6_roundtrip (ids : List (List Char)) (b : Bool) (cfg : Config) :
    (normalize_ids_list ids = ids →
      save_config (get_config (Disk.stored ⟨some ids, some b⟩)) =
        Disk.stored ⟨some ids, some b⟩) ∧
    get_config (save_config cfg) =
      ⟨normalize_ids_list cfg.answered_ids, cfg.filter_used⟩ := by
  constructor
  · intro hnorm
    simp [save_config, get_config, load_raw_config, hnorm]
  · simp [get_config, save_config, load_raw_config, normalize_ids_list_idem]

theorem C6_roundtrip_witness :
    (save_config (get_config
        (Disk.stored ⟨some [chars "1", chars "2"], some true⟩)) =
      Disk.stored ⟨some [chars "1", chars "2"], some true⟩) ∧
    get_config (save_config ⟨[chars "3", chars "12"], false⟩) =
      ⟨normalize_ids_list [chars "3", chars "12"], false⟩ :=
  ⟨(C6_roundtrip [chars "1", chars "2"] true
      ⟨[chars "3", chars "12"], false⟩).1 (by decide),
   (C6_roundtrip [chars "1", chars "2"] true
      ⟨[chars "3", chars "12"], false⟩).2⟩

/-- C7: loading from a missing or corrupt (unparseable) backing file
returns the default store — empty answered-ID list, `filter_used = true` —
and, being total, never raises. -/
theorem C7_load_defaults :
    get_config Disk.missing = ⟨[], true⟩ ∧
    get_config Disk.corrupt = ⟨[], true⟩ :=
  ⟨rfl, rfl⟩

/-- C8 counterexample: the claim says every malformed token — including
whitespace-only ones — is reported in the validation message, but on the
input `"1, ,2"` the whitespace-only middle token is silently dropped:
the invalid list comes back empty (so no validation message appears),
while the valid ids are still added. -/
theorem C8_counterexample :
    on_add_ids (chars "1, ,2") =
      some ([chars "1", chars "2"], ([] : List (List Char))) := by
  decide

/-- C8 (amended): tokens that are nonempty after trimming but not numeric
are rejected and reported in the invalid list (and never enter the new-id
list); empty or whitespace-only tokens are silently dropped — rejected but
not reported; the accepted list holds only digit strings, the invalid list
only nonempty non-digit strings; and after the whole add flow the
persisted answered set holds nothing but digit strings, so no malformed
token is ever added or coerced. -/
theorem C8_validation (text : List Char) (news invalid : List (List Char))
    (h : on_add_ids text = some (news, invalid)) :
    (∀ p ∈ splitComma (pyStrip text),
      (pyStrip p ≠ [] → isdigitStr (pyStrip p) = false →
        pyStrip p ∈ invalid ∧ pyStrip p ∉ news) ∧
      (pyStrip p = [] → pyStrip p ∉ invalid ∧ pyStrip p ∉ news)) ∧
    (∀ q ∈ news, isdigitStr q = true) ∧
    (∀ q ∈ invalid, isdigitStr q = false ∧ q ≠ []) ∧
    (∀ (text2 : List Char) (d : Disk) (q : List Char),
      q ∈ get_answered_ids (on_add_ids_flow text2 d) →
        isdigitStr q = true) := by
  simp only [on_add_ids] at h
  by_cases hemp : (pyStrip text).isEmpty = true
  · simp [hemp] at h
  · rw [if_neg hemp] at h
    simp only [Option.some.injEq, Prod.mk.injEq] at h
    obtain ⟨hn, hi⟩ := h
    subst hn
    subst hi
    refine ⟨?_, ?_, ?_, ?_⟩
    · intro p hp
      constructor
      · intro hne hnd
        have hpp : pyStrip p ∈
            ((splitComma (pyStrip text)).map pyStrip).filter
              (fun q => !q.isEmpty) :=
          List.mem_filter.mpr ⟨List.mem_map.mpr ⟨p, hp, rfl⟩,
            by simp [List.isEmpty_iff, hne]⟩
        refine ⟨List.mem_filter.mpr ⟨hpp, by simp [hnd]⟩, ?_⟩
        intro hmem
        have := (List.mem_filter.mp hmem).2
        rw [hnd] at this
        exact absurd this (by simp)
      · intro hpe
        constructor
        · intro hmem
          have h2 := (List.mem_filter.mp (List.mem_filter.mp hmem).1).2
          rw [hpe] at h2
          exact absurd h2 (by simp)
        · intro hmem
          have h2 := (List.mem_filter.mp (List.mem_filter.mp hmem).1).2
          rw [hpe] at h2
          exact absurd h2 (by simp)
    · intro q hq
      exact (List.mem_filter.mp hq).2
    · intro q hq
      refine ⟨by simpa using (List.mem_filter.mp hq).2, ?_⟩
      have h2 := (List.mem_filter.mp (List.mem_filter.mp hq).1).2
      intro hqe
      rw [hqe] at h2
      exact absurd h2 (by simp)
    · intro t2 d q hq
      unfold get_answered_ids at hq
      exact normalize_ids_list_all_digit hq

theorem C8_validation_witness :
    (∀ p ∈ splitComma (pyStrip (chars "12a,34")),
      (pyStrip p ≠ [] → isdigitStr (pyStrip p) = false →
        pyStrip p ∈ [chars "12a"] ∧ pyStrip p ∉ [chars "34"]) ∧
      (pyStrip p = [] → pyStrip p ∉ [chars "12a"] ∧ pyStrip p ∉ [chars "34"])) ∧
    (∀ q ∈ [chars "34"], isdigitStr q = true) ∧
    (∀ q ∈ [chars "12a"], isdigitStr q = false ∧ q ≠ []) ∧
    (∀ (text2 : List Char) (d : Disk) (q : List Char),
      q ∈ get_answered_ids (on_add_ids_flow text2 d) →
        isdigitStr q = true) :=
  C8_validation (chars "12a,34") [chars "34"] [chars "12a"] (by decide)

/-- C9: a record whose resolution fails is skipped and contributes
nothing, and the extraction still processes all remaining records: the
result over any record list equals the result over its successfully
resolving sublist, and prepending a failing record leaves the result
unchanged — a single bad record never invalidates the batch. -/
theorem C9_skip_failures (resolve : Nat → Option (List Char))
    (card_ids : List Nat) (answered : List (List Char)) (fu : Bool)
    (bad : Nat) :
    extract_ids resolve card_ids answered fu =
      extract_ids resolve (card_ids.filter (fun i => (resolve i).isSome))
        answered fu ∧
    (resolve bad = none →
      extract_ids resolve (bad :: card_ids) answered fu =
        extract_ids resolve card_ids answered fu) := by
  have hloop : ∀ (ids : List Nat)
      (acc : List (List Char) × List (List Char) × List (List Char)),
      ids.foldl (extract_step resolve) acc =
        (ids.filter (fun i => (resolve i).isSome)).foldl
          (extract_step resolve) acc := by
    intro ids
    induction ids with
    | nil => intro acc; simp
    | cons i rest ih =>
      intro acc
      cases hri : resolve i with
      | none =>
        rw [List.foldl_cons,
          show extract_step resolve acc i = acc from by
            simp [extract_step, hri],
          show List.filter (fun j => (resolve j).isSome) (i :: rest) =
              List.filter (fun j => (resolve j).isSome) rest from by
            simp [List.filter_cons, hri]]
        exact ih acc
      | some tags =>
        rw [show List.filter (fun j => (resolve j).isSome) (i :: rest) =
            i :: List.filter (fun j => (resolve j).isSome) rest from by
          simp [List.filter_cons, hri]]
        rw [List.foldl_cons, List.foldl_cons]
        exact ih _
  constructor
  · unfold extract_ids extract_loop
    rw [hloop card_ids ([], [], [])]
  · intro hbad
    unfold extract_ids extract_loop
    rw [List.foldl_cons,
      show extract_step resolve ([], [], []) bad = ([], [], []) from by
        simp [extract_step, hbad]]

theorem C9_skip_failures_witness :
    (extract_ids (fun i => if i = 1 then none
        else some (chars "#AK_Step1_v12::#UWorld::Step::42"))
        [0, 1] [] true =
      extract_ids (fun i => if i = 1 then none
          else some (chars "#AK_Step1_v12::#UWorld::Step::42"))
        (List.filter (fun i => ((fun i => if i = 1 then none
            else some (chars "#AK_Step1_v12::#UWorld::Step::42")) i).isSome)
          [0, 1]) [] true) ∧
    ((fun i => if i = 1 then none
        else some (chars "#AK_Step1_v12::#UWorld::Step::42")) 1 = none →
      extract_ids (fun i => if i = 1 then none
          else some (chars "#AK_Step1_v12::#UWorld::Step::42"))
        (1 :: [0, 1]) [] true =
        extract_ids (fun i => if i = 1 then none
            else some (chars "#AK_Step1_v12::#UWorld::Step::42"))
          [0, 1] [] true) :=
  C9_skip_failures
    (fun i => if i = 1 then none
      else some (chars "#AK_Step1_v12::#UWorld::Step::42"))
    [0, 1] [] true 1

/-- C10: each mutation touches only its own field of the persisted
config: `set_filter_used` leaves the stored answered-ID list unchanged
(up to the normalization every load applies) and sets the flag;
`set_answered_ids` leaves the stored flag unchanged and sets the list to
the normalized input. -/
theorem C10_frame (d : Disk) (flag : Bool) (ids : List (List Char)) :
    (get_config (set_filter_used flag d)).answered_ids =
      (get_config d).answered_ids ∧
    (get_config (set_filter_used flag d)).filter_used = flag ∧
    (get_config (set_answered_ids ids d)).filter_used =
      (get_config d).filter_used ∧
    (get_config (set_answered_ids ids d)).answered_ids =
      normalize_ids_list ids := by
  refine ⟨?_, ?_, ?_, ?_⟩ <;>
    simp [set_filter_used, set_answered_ids, save_config, get_config,
      load_raw_config, normalize_ids_list_idem]

end UWorld

